import Mathlib

/-!
Verification of the better-toml language server core against its
natural-language specification.

The development shallowly embeds the server source (server main module):
the TOML parse adapter `parseTOML`, the error-to-diagnostic mapper inside
`doValidation`, the configuration rebuild `updateConfiguration`, and the
debounced validation pipeline (`triggerValidation`, `cleanPendingValidation`,
`validateTextDocument`, the close handler) as an explicit state machine.

External collaborators (the bombadil TOML reader, node path utilities and
the JS encodeURIComponent builtin) are not part of the repository source;
the reader is abstracted as an input value (`ReaderOutcome`) and the
builtins are modelled from the spec where a concrete function is needed.
-/

namespace BetterToml

/-- Severity levels of the language-server diagnostic protocol. -/
inductive DiagnosticSeverity where
  | error
  | warning
  | information
  | hint
deriving DecidableEq

/-- A zero-based position, with the field names used by the server source
(it builds literals of the form with line and column fields).  Coordinates
are integers because the source performs unchecked arithmetic on the
parser's numbers. -/
structure Pos where
  line : Int
  column : Int
deriving DecidableEq

/-- A range of two positions, start inclusive, end exclusive. -/
structure TextRange where
  start : Pos
  stop : Pos
deriving DecidableEq

/-- A published diagnostic, with the fields the server fills in. -/
structure Diagnostic where
  severity : DiagnosticSeverity
  range : TextRange
  message : String
  source : String
deriving DecidableEq

/-- Errors reported by the TOML reader.  The source inspects the error
object dynamically: an object carrying line, column and length fields
(lexer-style), an object carrying a token with its own line, column and
length (parser-style), or anything else.  Following the spec design note
this duck-typing is embedded as a tagged union with an unknown variant. -/
inductive TomlError where
  | positional (line column length : Int) (message : String)
  | tokenAnchored (tokLine tokColumn tokLength : Int) (message : String)
  | unknown (message : String)
deriving DecidableEq

/-- The message carried by any shape of TomlError. -/
def TomlError.message : TomlError → String
  | .positional _ _ _ m => m
  | .tokenAnchored _ _ _ m => m
  | .unknown m => m

/-- A generic decoded value tree (the reader's result object). -/
inductive JsonValue where
  | null
  | boolean (b : Bool)
  | number (n : Int)
  | string (s : String)
  | array (items : List JsonValue)
  | object (fields : List (String × JsonValue))

/-- The parsed-document shape the server builds: decoded value plus the
error list (TOMLDocument in the source). -/
structure TOMLDocument where
  json : JsonValue
  errors : List TomlError

/-- The observable outcome of running the external bombadil reader on an
input string: readToml leaves a result (null on failure) and an error
list on the reader object.  The reader is a library outside the
repository source, so it enters the embedding as data. -/
structure ReaderOutcome where
  result : Option JsonValue
  errors : List TomlError

/-- Embedding of parseTOML: run the reader, and if its result is non-null
keep it with an empty error list, otherwise keep an empty object together
with the reader's error list.  The source has no try/catch here; it is a
total function of the reader outcome. -/
def parseTOML (reader : ReaderOutcome) : TOMLDocument :=
  match reader.result with
  | some v => { json := v, errors := [] }
  | none => { json := JsonValue.object [], errors := reader.errors }

/-- Embedding of the error-range computation inside doValidation: default
range (0,0)-(0,1); an error with line/column/length fields maps to
start (line-1, column-1) and end (line-1, column+length); an error with a
token maps to start (token.line-1, token.column-1) and
end (token.line-1, token.column-1+token.length). -/
def tomlErrorRange : TomlError → TextRange
  | .positional line column length _ =>
      { start := { line := line - 1, column := column - 1 },
        stop := { line := line - 1, column := column + length } }
  | .tokenAnchored tokLine tokColumn tokLength _ =>
      { start := { line := tokLine - 1, column := tokColumn - 1 },
        stop := { line := tokLine - 1, column := tokColumn - 1 + tokLength } }
  | .unknown _ =>
      { start := { line := 0, column := 0 }, stop := { line := 0, column := 1 } }

/-- Embedding of the doValidation override of the facade.  When the error
list is non-empty it resolves to a one-element diagnostic array built from
the first error; when the error list is empty the source returns a promise
that resolves with no value (the delegation to the generic JSON validator
is present only as commented-out code), modelled as none.  The unused
textDocument parameter of the source is dropped. -/
def doValidation (tomlDocument : TOMLDocument) : Option (List Diagnostic) :=
  match tomlDocument.errors with
  | [] => none
  | ex :: _ =>
      some [{ severity := DiagnosticSeverity.error,
              range := tomlErrorRange ex,
              message := ex.message,
              source := "Toml Parser" }]

/-- Strict ordering on positions: earlier line, or same line and earlier
column. -/
def posLt (a b : Pos) : Prop :=
  a.line < b.line ∨ (a.line = b.line ∧ a.column < b.column)

instance (a b : Pos) : Decidable (posLt a b) := by
  unfold posLt
  infer_instance

/-- The end position the spec sentence predicts for a positional error:
start shifted right by the length, that is (line-1, column-1+length).
Stated from the spec words, for comparison with the source mapping. -/
def specPositionalEnd (line column length : Int) : Pos :=
  { line := line - 1, column := column - 1 + length }

/-- Length-wellformedness under which the mapped range is non-empty:
a non-negative length for positional errors, a positive token length for
token-anchored errors, and no condition for the fallback shape. -/
def tomlErrorLengthOk : TomlError → Prop
  | .positional _ _ length _ => 0 ≤ length
  | .tokenAnchored _ _ tokLength _ => 1 ≤ tokLength
  | .unknown _ => True

instance (e : TomlError) : Decidable (tomlErrorLengthOk e) := by
  unfold tomlErrorLengthOk
  cases e <;> infer_instance

/-! Configuration reconciler (updateConfiguration). -/

/-- The only field of an inline JSON schema the configuration code reads. -/
structure JSONSchema where
  id : Option String
deriving DecidableEq

/-- One entry of the static toml.schemas settings list. -/
structure JSONSchemaSettings where
  fileMatch : Option (List String)
  url : Option String
  schema : Option JSONSchema
deriving DecidableEq

/-- One schema binding pushed into languageSettings.schemas. -/
structure SchemaBinding where
  uri : String
  fileMatch : Option (List String)
  schema : Option JSONSchema
deriving DecidableEq

/-- The effective configuration handed to languageService.configure. -/
structure LanguageSettings where
  validate : Bool
  allowComments : Bool
  schemas : List SchemaBinding

/-- JS truthiness of an optional string: undefined and the empty string
are falsy. -/
def jsTruthy : Option String → Bool
  | none => false
  | some s => s != ""

/-- Uppercase hexadecimal digit for a value below 16. -/
def hexDigit (n : Nat) : Char :=
  if n < 10 then Char.ofNat (48 + n) else Char.ofNat (55 + n)

/-- Characters left unescaped by the JS encodeURIComponent builtin. -/
def isUnreservedChar (c : Char) : Bool :=
  c.isAlphanum || c = '-' || c = '_' || c = '.' || c = '!' || c = '~' ||
    c = '*' || c.toNat = 39 || c = '(' || c = ')'

/-- Percent-encoding of one character code point (ASCII scope). -/
def percentEncodeChar (c : Char) : String :=
  "%" ++ String.singleton (hexDigit (c.toNat / 16 % 16)) ++
    String.singleton (hexDigit (c.toNat % 16))

/-- Modelled from the spec: the JS encodeURIComponent builtin (external to
the repository source), restricted to ASCII input, used to derive a schema
URI from the encoded join of file-match patterns. -/
def encodeURIComponent (s : String) : String :=
  String.join (s.toList.map fun c =>
    if isUnreservedChar c then String.singleton c else percentEncodeChar c)

/-- Modelled from the spec: normalization of a slash-separated path
(node path.normalize is external to the repository source): current-dir
and empty segments are dropped and a parent segment removes the previous
segment. -/
def pathNormalize (p : String) : String :=
  let segs := (p.splitOn "/").foldl
    (fun acc s =>
      if s = "." || s = "" then acc
      else if s = ".." then acc.dropLast
      else acc ++ [s]) []
  "/" ++ String.intercalate "/" segs

/-- Modelled from the spec: resolution of a workspace-relative schema path
against the workspace root, via path join and normalize followed by
file-URI conversion (node path and the URI helper are external to the
repository source). -/
def workspaceResolve (rootFsPath relPath : String) : String :=
  "file://" ++ pathNormalize (rootFsPath ++ "/" ++ relPath)

/-- The uri[0] test of the source: whether the first character of the
string is a dot (false for the empty string, as indexing past the end of
a JS string yields undefined). -/
def startsWithDot (s : String) : Bool :=
  match s.data with
  | [] => false
  | c :: _ => c == '.'

/-- Embedding of the per-entry body of the static settings loop of
updateConfiguration: derive the URI from url, else from an inline
schema's id, else from the encoded join of the fileMatch patterns; if the
result is truthy, resolve a dot-leading URI against the workspace root
(when one exists) and produce the binding, else produce nothing. -/
def staticBinding (workspaceRoot : Option String) (entry : JSONSchemaSettings) :
    Option SchemaBinding :=
  let uri0 := entry.url
  let uri1 : Option String :=
    if !(jsTruthy uri0) then
      match entry.schema with
      | some sc => sc.id
      | none => uri0
    else uri0
  let uri2 : Option String :=
    if !(jsTruthy uri1) then
      match entry.fileMatch with
      | some fm =>
          some ("vscode://schemas/custom/" ++
            encodeURIComponent (String.intercalate "&" fm))
      | none => uri1
    else uri1
  match uri2 with
  | some u =>
      if u != "" then
        let u2 :=
          match workspaceRoot with
          | some root => if startsWithDot u then workspaceResolve root u else u
          | none => u
        some { uri := u2, fileMatch := entry.fileMatch, schema := entry.schema }
      else none
  | none => none

/-- The bindings contributed by the dynamic schema associations: one
binding per pattern and URI, with the pattern as sole fileMatch.  The
Array.isArray guard of the source always passes in the typed embedding. -/
def dynamicBindings (schemaAssociations : Option (List (String × List String))) :
    List SchemaBinding :=
  match schemaAssociations with
  | some assocs =>
      assocs.flatMap fun pa =>
        pa.2.map fun uri => { uri := uri, fileMatch := some [pa.1], schema := none }
  | none => []

/-- The bindings contributed by the static settings entries, in order. -/
def staticBindings (workspaceRoot : Option String)
    (tomlConfigurationSettings : Option (List JSONSchemaSettings)) :
    List SchemaBinding :=
  match tomlConfigurationSettings with
  | some cfgs => cfgs.filterMap (staticBinding workspaceRoot)
  | none => []

/-- The guarded push of the static settings loop: append the binding when
the derived URI was truthy, else leave the list unchanged. -/
def pushBinding (acc : List SchemaBinding) (b : Option SchemaBinding) :
    List SchemaBinding :=
  match b with
  | some x => acc ++ [x]
  | none => acc

/-- Embedding of updateConfiguration: start from validate and
allowComments true with an empty schema list, push one binding per
dynamic association pair, then push the binding derived from each static
settings entry.  The forEach push loops of the source become left folds
that append at the end. -/
def updateConfiguration (schemaAssociations : Option (List (String × List String)))
    (tomlConfigurationSettings : Option (List JSONSchemaSettings))
    (workspaceRoot : Option String) : LanguageSettings :=
  let schemas0 : List SchemaBinding := []
  let schemas1 :=
    match schemaAssociations with
    | some assocs =>
        assocs.foldl
          (fun acc pa =>
            acc ++ pa.2.map fun uri =>
              { uri := uri, fileMatch := some [pa.1], schema := none })
          schemas0
    | none => schemas0
  let schemas2 :=
    match tomlConfigurationSettings with
    | some cfgs =>
        cfgs.foldl (fun acc entry => pushBinding acc (staticBinding workspaceRoot entry))
          schemas1
    | none => schemas1
  { validate := true, allowComments := true, schemas := schemas2 }

/-! Validation pipeline: debounce timers, close handling, publishing.

The source keeps a map pendingValidationRequests from document uri to the
handle of an armed setTimeout timer.  A handle is stored immediately when
the timer is armed, and every removal from the map coincides with the
timer either being cancelled (clearTimeout in cleanPendingValidation) or
firing (the callback deletes its own entry), so map membership and
being-armed coincide; the embedding therefore fuses the map and the
runtime timer registry into one association list of timer entries.

doValidation of the facade always returns an already-resolved promise, so
its continuation in validateTextDocument runs as a microtask before the
next incoming message is handled; each event handler is therefore one
atomic step, including the diagnostics publication.  The published field
logs sendDiagnostics calls newest first (the payload is none when the
source passes the undefined result of the error-free path), and the runs
field logs each validateTextDocument execution newest first. -/

/-- An open text document: identity plus current content. -/
structure Doc where
  uri : String
  text : String
deriving DecidableEq

/-- An armed validation timer: its handle, the captured document and the
delay it was armed with. -/
structure TimerEntry where
  id : Nat
  doc : Doc
  delay : Nat
deriving DecidableEq

/-- The server state touched by the validation pipeline. -/
structure ServerState where
  pendingValidationRequests : List (String × TimerEntry)
  nextId : Nat
  published : List (String × Option (List Diagnostic))
  runs : List Doc

/-- The debounce delay constant of the source. -/
def validationDelayMs : Nat := 200

/-- Embedding of connection.sendDiagnostics: log the payload for the uri. -/
def sendDiagnostics (s : ServerState) (uri : String)
    (diagnostics : Option (List Diagnostic)) : ServerState :=
  { s with published := (uri, diagnostics) :: s.published }

/-- Embedding of cleanPendingValidation: when the map holds a timer for
the document's uri, cancel it and drop the entry. -/
def cleanPendingValidation (s : ServerState) (textDocument : Doc) : ServerState :=
  match s.pendingValidationRequests.find? (fun p => p.1 == textDocument.uri) with
  | some _ =>
      { s with pendingValidationRequests :=
          s.pendingValidationRequests.filter fun p => p.1 != textDocument.uri }
  | none => s

/-- Embedding of triggerValidation: cancel any existing timer for the uri,
then arm a fresh timer with the default delay and store it under the uri. -/
def triggerValidation (s : ServerState) (textDocument : Doc) : ServerState :=
  let s1 := cleanPendingValidation s textDocument
  { s1 with
    pendingValidationRequests :=
      (textDocument.uri, { id := s1.nextId, doc := textDocument,
                           delay := validationDelayMs }) ::
        s1.pendingValidationRequests,
    nextId := s1.nextId + 1 }

/-- Embedding of validateTextDocument: empty content publishes an empty
diagnostic list immediately; otherwise the document is parsed (through the
external reader) and the doValidation result is published.  The run log
records the execution. -/
def validateTextDocument (reader : String → ReaderOutcome) (s : ServerState)
    (textDocument : Doc) : ServerState :=
  let s1 := { s with runs := textDocument :: s.runs }
  if textDocument.text.length = 0 then
    sendDiagnostics s1 textDocument.uri (some [])
  else
    let tomlDocument := parseTOML (reader textDocument.text)
    sendDiagnostics s1 textDocument.uri (doValidation tomlDocument)

/-- Firing of an armed timer: the callback removes its uri from the map
and runs validateTextDocument on the captured document.  A cancelled
timer is no longer armed and firing it does nothing. -/
def fireTimer (reader : String → ReaderOutcome) (s : ServerState) (id : Nat) :
    ServerState :=
  match s.pendingValidationRequests.find? (fun p => p.2.id == id) with
  | some p =>
      validateTextDocument reader
        { s with pendingValidationRequests :=
            s.pendingValidationRequests.filter fun q => q.1 != p.2.doc.uri }
        p.2.doc
  | none => s

/-- Embedding of the onDidClose handler: cancel any pending timer and
publish an empty diagnostic set for the closed document. -/
def onDidClose (s : ServerState) (textDocument : Doc) : ServerState :=
  sendDiagnostics (cleanPendingValidation s textDocument) textDocument.uri (some [])

/-- The events the pipeline reacts to: a content change (open or edit),
the firing of an armed timer, and a document close. -/
inductive ServerEvent where
  | change (d : Doc)
  | fire (id : Nat)
  | close (d : Doc)

/-- One atomic handler execution. -/
def step (reader : String → ReaderOutcome) (s : ServerState) :
    ServerEvent → ServerState
  | .change d => triggerValidation s d
  | .fire id => fireTimer reader s id
  | .close d => onDidClose s d

/-- The server state at startup. -/
def initState : ServerState :=
  { pendingValidationRequests := [], nextId := 0, published := [], runs := [] }

/-- The state after processing a sequence of events from startup. -/
def run (reader : String → ReaderOutcome) (events : List ServerEvent) : ServerState :=
  events.foldl (step reader) initState

/-- The armed timer entries for one uri. -/
def pendingFor (s : ServerState) (uri : String) : List (String × TimerEntry) :=
  s.pendingValidationRequests.filter fun p => p.1 == uri

/-- The most recently published diagnostics payload for one uri, if any. -/
def lastPublished (s : ServerState) (uri : String) :
    Option (Option (List Diagnostic)) :=
  (s.published.find? fun p => p.1 == uri).map fun p => p.2

/-- Well-formedness of the pipeline state: the pending map has at most one
entry per uri, and every entry is stored under the uri of its captured
document. -/
structure WF (s : ServerState) : Prop where
  keysNodup : (s.pendingValidationRequests.map Prod.fst).Nodup
  keyMatchesDoc : ∀ p ∈ s.pendingValidationRequests, p.1 = p.2.doc.uri

/-! Helper lemmas about the pipeline operations. -/

theorem clean_eq (s : ServerState) (d : Doc) :
    cleanPendingValidation s d =
      { s with pendingValidationRequests :=
          s.pendingValidationRequests.filter fun p => p.1 != d.uri } := by
  unfold cleanPendingValidation
  cases h : s.pendingValidationRequests.find? (fun p => p.1 == d.uri) with
  | some p => rfl
  | none =>
      have hall := List.find?_eq_none.mp h
      have hself : (s.pendingValidationRequests.filter fun p => p.1 != d.uri) =
          s.pendingValidationRequests := by
        apply List.filter_eq_self.mpr
        intro a ha
        have := hall a ha
        simpa [bne] using this
      rw [hself]

theorem trigger_eq (s : ServerState) (d : Doc) :
    triggerValidation s d =
      { s with
        pendingValidationRequests :=
          (d.uri, { id := s.nextId, doc := d, delay := validationDelayMs }) ::
            (s.pendingValidationRequests.filter fun p => p.1 != d.uri),
        nextId := s.nextId + 1 } := by
  unfold triggerValidation
  rw [clean_eq]

theorem validate_runs (reader : String → ReaderOutcome) (s : ServerState) (d : Doc) :
    (validateTextDocument reader s d).runs = d :: s.runs := by
  unfold validateTextDocument sendDiagnostics
  split <;> rfl

theorem validate_pending (reader : String → ReaderOutcome) (s : ServerState) (d : Doc) :
    (validateTextDocument reader s d).pendingValidationRequests =
      s.pendingValidationRequests := by
  unfold validateTextDocument sendDiagnostics
  split <;> rfl

theorem validate_published (reader : String → ReaderOutcome) (s : ServerState) (d : Doc) :
    ∃ diags, (validateTextDocument reader s d).published = (d.uri, diags) :: s.published := by
  unfold validateTextDocument sendDiagnostics
  split
  · exact ⟨some [], rfl⟩
  · exact ⟨_, rfl⟩

theorem wf_of_pending_eq (s1 s2 : ServerState)
    (h : s1.pendingValidationRequests = s2.pendingValidationRequests)
    (hw : WF s2) : WF s1 := by
  constructor
  · rw [h]; exact hw.keysNodup
  · rw [h]; exact hw.keyMatchesDoc

theorem wf_filter (s : ServerState) (q : String × TimerEntry → Bool) (hw : WF s) :
    WF { s with pendingValidationRequests := s.pendingValidationRequests.filter q } := by
  constructor
  · exact ((List.filter_sublist _).map Prod.fst).nodup hw.keysNodup
  · intro p hp
    exact hw.keyMatchesDoc p (List.mem_of_mem_filter hp)

theorem wf_trigger (s : ServerState) (d : Doc) (hw : WF s) :
    WF (triggerValidation s d) := by
  rw [trigger_eq]
  constructor
  · simp only [List.map_cons, List.nodup_cons]
    constructor
    · intro hmem
      rcases List.mem_map.mp hmem with ⟨p, hp, hkey⟩
      have hne : p.1 ≠ d.uri := by
        have := List.of_mem_filter hp
        simpa [bne] using this
      exact hne hkey
    · exact ((List.filter_sublist _).map Prod.fst).nodup hw.keysNodup
  · intro p hp
    rcases List.mem_cons.mp hp with h | h
    · subst h; rfl
    · exact hw.keyMatchesDoc p (List.mem_of_mem_filter h)

theorem wf_step (reader : String → ReaderOutcome) (s : ServerState) (e : ServerEvent)
    (hw : WF s) : WF (step reader s e) := by
  cases e with
  | change d => exact wf_trigger s d hw
  | fire id =>
      show WF (fireTimer reader s id)
      unfold fireTimer
      cases h : s.pendingValidationRequests.find? (fun p => p.2.id == id) with
      | some p =>
          exact wf_of_pending_eq _ _ (validate_pending _ _ _) (wf_filter s _ hw)
      | none => exact hw
  | close d =>
      show WF (onDidClose s d)
      unfold onDidClose
      refine wf_of_pending_eq _
        { s with pendingValidationRequests :=
            s.pendingValidationRequests.filter fun p => p.1 != d.uri } ?_ ?_
      · show (cleanPendingValidation s d).pendingValidationRequests = _
        rw [clean_eq]
      · exact wf_filter s _ hw

theorem wf_initState : WF initState := by
  constructor
  · simp [initState]
  · intro p hp
    simp [initState] at hp

theorem wf_run (reader : String → ReaderOutcome) (events : List ServerEvent) :
    WF (run reader events) := by
  unfold run
  have : ∀ (l : List ServerEvent) (s : ServerState), WF s → WF (l.foldl (step reader) s) := by
    intro l
    induction l with
    | nil => intro s hs; exact hs
    | cons e l ih =>
        intro s hs
        exact ih _ (wf_step reader s e hs)
  exact this events initState wf_initState

theorem burst_state (u : String) (docs : List Doc) (d : Doc) :
    ∀ s : ServerState, (∀ x ∈ docs, x.uri = u) → d.uri = u →
    (docs ++ [d]).foldl triggerValidation s =
      { s with
        pendingValidationRequests :=
          (u, { id := s.nextId + docs.length, doc := d, delay := validationDelayMs }) ::
            (s.pendingValidationRequests.filter fun p => p.1 != u),
        nextId := s.nextId + docs.length + 1 } := by
  induction docs with
  | nil =>
      intro s _ hd
      simp only [List.nil_append, List.foldl_cons, List.foldl_nil, trigger_eq, hd,
        List.length_nil, Nat.add_zero]
  | cons x xs ih =>
      intro s hall hd
      have hx : x.uri = u := hall x (List.mem_cons_self x xs)
      have hxs : ∀ y ∈ xs, y.uri = u := fun y hy => hall y (List.mem_cons_of_mem x hy)
      rw [List.cons_append, List.foldl_cons, ih (triggerValidation s x) hxs hd,
        trigger_eq, hx]
      simp only [List.filter_cons, bne_self_eq_false, Bool.false_eq_true, if_false,
        List.filter_filter, Bool.and_self, List.length_cons]
      have harith : s.nextId + 1 + xs.length = s.nextId + (xs.length + 1) := by omega
      rw [harith]

theorem pendingFor_burst (u : String) (docs : List Doc) (d : Doc) (s : ServerState)
    (hall : ∀ x ∈ docs, x.uri = u) (hd : d.uri = u) :
    pendingFor ((docs ++ [d]).foldl triggerValidation s) u =
      [(u, { id := s.nextId + docs.length, doc := d, delay := validationDelayMs })] := by
  rw [burst_state u docs d s hall hd]
  unfold pendingFor
  simp only [List.filter_cons]
  simp only [beq_self_eq_true, if_pos]
  rw [List.filter_filter]
  rw [List.filter_eq_nil_iff.mpr]
  intro a ha
  cases h : a.1 == u with
  | true => simp [bne, h]
  | false => simp [h]

theorem lastPublished_send_same (s : ServerState) (u : String)
    (diags : Option (List Diagnostic)) :
    lastPublished (sendDiagnostics s u diags) u = some diags := by
  unfold lastPublished sendDiagnostics
  simp

theorem lastPublished_send_other (s : ServerState) (u v : String)
    (diags : Option (List Diagnostic)) (h : v ≠ u) :
    lastPublished (sendDiagnostics s v diags) u = lastPublished s u := by
  unfold lastPublished sendDiagnostics
  simp [List.find?_cons, h]

/-- Quiescence for a uri: a well-formed state with no armed timer for the
uri and an empty diagnostic set as the most recent publication for it. -/
def Quiet (u : String) (s : ServerState) : Prop :=
  WF s ∧ pendingFor s u = [] ∧ lastPublished s u = some (some [])

theorem pendingFor_eq_nil_iff (s : ServerState) (u : String) :
    pendingFor s u = [] ↔ ∀ p ∈ s.pendingValidationRequests, ¬ p.1 = u := by
  unfold pendingFor
  rw [List.filter_eq_nil_iff]
  constructor
  · intro h p hp
    have := h p hp
    simpa using this
  · intro h p hp
    simpa using h p hp

theorem quiet_close (s : ServerState) (d : Doc) (hw : WF s) :
    Quiet d.uri (onDidClose s d) := by
  unfold onDidClose
  have hpend : (cleanPendingValidation s d).pendingValidationRequests =
      s.pendingValidationRequests.filter fun p => p.1 != d.uri := by
    rw [clean_eq]
  refine ⟨?_, ?_, ?_⟩
  · refine wf_of_pending_eq _
      { s with pendingValidationRequests :=
          s.pendingValidationRequests.filter fun p => p.1 != d.uri } ?_ ?_
    · exact hpend
    · exact wf_filter s _ hw
  · rw [pendingFor_eq_nil_iff]
    intro p hp
    have hp2 : p ∈ (cleanPendingValidation s d).pendingValidationRequests := hp
    rw [hpend] at hp2
    have := List.of_mem_filter hp2
    simpa [bne] using this
  · exact lastPublished_send_same _ _ _

theorem quiet_step (reader : String → ReaderOutcome) (u : String) (s : ServerState)
    (e : ServerEvent) (hq : Quiet u s)
    (hnc : ∀ d2, e = ServerEvent.change d2 → d2.uri ≠ u) :
    Quiet u (step reader s e) := by
  obtain ⟨hw, hpend, hpub⟩ := hq
  have hnotin : ∀ p ∈ s.pendingValidationRequests, ¬ p.1 = u :=
    (pendingFor_eq_nil_iff s u).mp hpend
  cases e with
  | change d2 =>
      have hne : d2.uri ≠ u := hnc d2 rfl
      refine ⟨wf_step reader s _ hw, ?_, ?_⟩
      · show pendingFor (triggerValidation s d2) u = []
        rw [trigger_eq, pendingFor_eq_nil_iff]
        intro p hp
        rcases List.mem_cons.mp hp with h | h
        · subst h; exact hne
        · exact hnotin p (List.mem_of_mem_filter h)
      · show lastPublished (triggerValidation s d2) u = some (some [])
        rw [trigger_eq] at *
        exact hpub
  | fire id =>
      show Quiet u (fireTimer reader s id)
      unfold fireTimer
      cases h : s.pendingValidationRequests.find? (fun p => p.2.id == id) with
      | some p =>
          have hmem : p ∈ s.pendingValidationRequests := List.mem_of_find?_eq_some h
          have hkey : p.1 ≠ u := hnotin p hmem
          have hdocuri : p.1 = p.2.doc.uri := hw.keyMatchesDoc p hmem
          have hduri : p.2.doc.uri ≠ u := by rw [← hdocuri]; exact hkey
          set s2 : ServerState :=
            { s with pendingValidationRequests :=
                s.pendingValidationRequests.filter fun q => q.1 != p.2.doc.uri } with hs2
          refine ⟨?_, ?_, ?_⟩
          · exact wf_of_pending_eq _ _ (validate_pending reader s2 p.2.doc)
              (wf_filter s _ hw)
          · rw [pendingFor_eq_nil_iff]
            intro q hq2
            rw [validate_pending] at hq2
            exact hnotin q (List.mem_of_mem_filter hq2)
          · obtain ⟨diags, hdiags⟩ := validate_published reader s2 p.2.doc
            unfold lastPublished
            rw [hdiags]
            have hbeq : (p.2.doc.uri == u) = false := by
              simp [hduri]
            rw [List.find?_cons, hbeq]
            exact hpub
      | none => exact ⟨hw, hpend, hpub⟩
  | close d2 =>
      show Quiet u (onDidClose s d2)
      unfold onDidClose
      have hpend2 : (cleanPendingValidation s d2).pendingValidationRequests =
          s.pendingValidationRequests.filter fun p => p.1 != d2.uri := by
        rw [clean_eq]
      refine ⟨?_, ?_, ?_⟩
      · refine wf_of_pending_eq _
          { s with pendingValidationRequests :=
              s.pendingValidationRequests.filter fun p => p.1 != d2.uri } ?_ ?_
        · exact hpend2
        · exact wf_filter s _ hw
      · rw [pendingFor_eq_nil_iff]
        intro p hp
        have hp2 : p ∈ (cleanPendingValidation s d2).pendingValidationRequests := hp
        rw [hpend2] at hp2
        exact hnotin p (List.mem_of_mem_filter hp2)
      · by_cases hcase : d2.uri = u
        · rw [hcase, lastPublished_send_same]
        · rw [lastPublished_send_other _ _ _ _ hcase]
          unfold lastPublished at *
          rw [clean_eq]
          exact hpub

theorem quiet_foldl (reader : String → ReaderOutcome) (u : String)
    (events : List ServerEvent) :
    ∀ s : ServerState, Quiet u s →
    (∀ e ∈ events, ∀ d2, e = ServerEvent.change d2 → d2.uri ≠ u) →
    Quiet u (events.foldl (step reader) s) := by
  induction events with
  | nil => intro s hs _; exact hs
  | cons e l ih =>
      intro s hs hall
      rw [List.foldl_cons]
      exact ih (step reader s e)
        (quiet_step reader u s e hs (hall e (List.mem_cons_self e l)))
        (fun e2 he2 => hall e2 (List.mem_cons_of_mem e he2))

/-! Helper lemmas about the configuration rebuild. -/

theorem foldl_push_map {α β : Type} (g : α → List β) :
    ∀ (l : List α) (init : List β),
      l.foldl (fun acc pa => acc ++ g pa) init = init ++ l.flatMap g := by
  intro l
  induction l with
  | nil => intro init; simp
  | cons x xs ih =>
      intro init
      rw [List.foldl_cons, ih, List.flatMap_cons, List.append_assoc]

theorem foldl_push_filterMap (h : JSONSchemaSettings → Option SchemaBinding) :
    ∀ (l : List JSONSchemaSettings) (init : List SchemaBinding),
      l.foldl (fun acc x => pushBinding acc (h x)) init = init ++ l.filterMap h := by
  intro l
  induction l with
  | nil => intro init; simp
  | cons x xs ih =>
      intro init
      rw [List.foldl_cons]
      cases hx : h x with
      | some b =>
          rw [ih]
          show (init ++ [b]) ++ List.filterMap h xs = init ++ List.filterMap h (x :: xs)
          rw [List.append_assoc, List.filterMap_cons, hx]
          rfl
      | none =>
          rw [ih]
          show init ++ List.filterMap h xs = init ++ List.filterMap h (x :: xs)
          rw [List.filterMap_cons, hx]

theorem updateConfiguration_schemas (schemaAssociations : Option (List (String × List String)))
    (tomlConfigurationSettings : Option (List JSONSchemaSettings))
    (workspaceRoot : Option String) :
    (updateConfiguration schemaAssociations tomlConfigurationSettings workspaceRoot).schemas =
      dynamicBindings schemaAssociations ++
        staticBindings workspaceRoot tomlConfigurationSettings := by
  unfold updateConfiguration dynamicBindings staticBindings
  cases schemaAssociations with
  | none =>
      cases tomlConfigurationSettings with
      | none => rfl
      | some cfgs =>
          dsimp only
          rw [foldl_push_filterMap (staticBinding workspaceRoot) cfgs]
  | some assocs =>
      cases tomlConfigurationSettings with
      | none =>
          dsimp only
          rw [foldl_push_map _ assocs]
          simp
      | some cfgs =>
          dsimp only
          rw [foldl_push_map _ assocs, foldl_push_filterMap (staticBinding workspaceRoot) cfgs]
          simp

theorem startsWithDot_custom (x : String) :
    startsWithDot ("vscode://schemas/custom/" ++ x) = false := by
  unfold startsWithDot
  rw [String.data_append]
  rfl

theorem custom_ne_empty (x : String) :
    ("vscode://schemas/custom/" ++ x) ≠ "" := by
  intro h
  have hd := congrArg String.data h
  rw [String.data_append] at hd
  simp at hd

/-! Claim theorems. -/

/-- C1: for every document whose parsed result has a non-empty errors
list, doValidation skips any delegation and resolves to an array holding
exactly one diagnostic, built from the first element of the errors list,
with severity Error and source tag Toml Parser, regardless of how many
errors the parser reported. -/
theorem c1_first_error_single_diagnostic
    (t : TOMLDocument) (e : TomlError) (rest : List TomlError)
    (h : t.errors = e :: rest) :
    doValidation t =
      some [{ severity := DiagnosticSeverity.error, range := tomlErrorRange e,
              message := e.message, source := "Toml Parser" }] := by
  unfold doValidation
  rw [h]

/-- Witness for C1 at a document carrying two parse errors. -/
theorem c1_witness :
    ({ json := JsonValue.object [],
       errors := [TomlError.unknown "a", TomlError.unknown "b"] } : TOMLDocument).errors =
      TomlError.unknown "a" :: [TomlError.unknown "b"] ∧
    doValidation
        { json := JsonValue.object [],
          errors := [TomlError.unknown "a", TomlError.unknown "b"] } =
      some [{ severity := DiagnosticSeverity.error,
              range := tomlErrorRange (TomlError.unknown "a"),
              message := (TomlError.unknown "a").message, source := "Toml Parser" }] :=
  ⟨rfl, c1_first_error_single_diagnostic _ (TomlError.unknown "a")
    [TomlError.unknown "b"] rfl⟩

/-- C2 counterexample: on a parsed document with an empty errors list the
source doValidation resolves with no value at all (the delegation to the
generic validator exists only as commented-out code), so no diagnostics
array, not even an empty one, is produced for a valid document. -/
theorem c2_counterexample :
    doValidation { json := JsonValue.object [], errors := [] } = none ∧
    doValidation { json := JsonValue.object [], errors := [] } ≠
      some ([] : List Diagnostic) := by
  exact ⟨rfl, by decide⟩

/-- C2 amended: for every document whose parsed result has an empty
errors list, doValidation returns a promise resolving with no value
(undefined), and in particular never delegates to the generic validator
nor returns an array of its diagnostics. -/
theorem c2_empty_errors_resolve_undefined (t : TOMLDocument)
    (h : t.errors = []) : doValidation t = none := by
  unfold doValidation
  rw [h]

/-- Witness for the amended C2 at an error-free document. -/
theorem c2_witness :
    ({ json := JsonValue.null, errors := [] } : TOMLDocument).errors = [] ∧
    doValidation { json := JsonValue.null, errors := [] } = none :=
  ⟨rfl, c2_empty_errors_resolve_undefined { json := JsonValue.null, errors := [] } rfl⟩

/-- C3 counterexample: when the reader fails with two recorded errors,
parseTOML keeps both, so the errors list does not contain exactly one
element. -/
theorem c3_counterexample :
    (parseTOML { result := none,
                 errors := [TomlError.unknown "first", TomlError.unknown "second"]
               }).errors.length = 2 ∧
    (2 : Nat) ≠ 1 := by
  exact ⟨rfl, by decide⟩

/-- C3 amended: parseTOML is a total function of the reader outcome (the
underlying reader records failures instead of throwing), and on failure
the errors list is exactly the reader's error list, which may hold more
than one element; on success the errors list is empty. -/
theorem c3_parse_total_keeps_reader_errors (r : ReaderOutcome) :
    (r.result = none → (parseTOML r).errors = r.errors) ∧
    (∀ v, r.result = some v → (parseTOML r).errors = []) := by
  constructor
  · intro h
    unfold parseTOML
    rw [h]
  · intro v h
    unfold parseTOML
    rw [h]

/-- Witness for the amended C3 on a failing and on a succeeding reader
outcome. -/
theorem c3_witness :
    (parseTOML { result := none, errors := [TomlError.unknown "x"] }).errors =
      [TomlError.unknown "x"] ∧
    (parseTOML { result := some JsonValue.null, errors := [] }).errors = [] :=
  ⟨(c3_parse_total_keeps_reader_errors _).1 rfl,
   (c3_parse_total_keeps_reader_errors _).2 JsonValue.null rfl⟩

/-- C4 counterexample: for the positional error with line 1, column 1 and
length 2 the produced end column is 3, not the value column-1+length = 2
that the claim (end shifted right by length from start) predicts. -/
theorem c4_counterexample :
    doValidation { json := JsonValue.object [],
                   errors := [TomlError.positional 1 1 2 "m"] } =
      some [{ severity := DiagnosticSeverity.error,
              range := { start := { line := 0, column := 0 },
                         stop := { line := 0, column := 3 } },
              message := "m", source := "Toml Parser" }] ∧
    ({ line := 0, column := 3 } : Pos) ≠ specPositionalEnd 1 1 2 := by
  exact ⟨by decide, by decide⟩

/-- C4 amended: a positional error maps to start (line-1, column-1) and
end (line-1, column+length), that is start shifted right by length+1; a
token-anchored error maps to start (line-1, column-1) and
end (line-1, column-1+length); in both shapes the start line is the
error's one-based line minus one. -/
theorem c4_error_range_mapping (line column length : Int) (msg : String)
    (rest : List TomlError) (j : JsonValue) :
    doValidation { json := j,
                   errors := TomlError.positional line column length msg :: rest } =
      some [{ severity := DiagnosticSeverity.error,
              range := { start := { line := line - 1, column := column - 1 },
                         stop := { line := line - 1, column := column + length } },
              message := msg, source := "Toml Parser" }] ∧
    doValidation { json := j,
                   errors := TomlError.tokenAnchored line column length msg :: rest } =
      some [{ severity := DiagnosticSeverity.error,
              range := { start := { line := line - 1, column := column - 1 },
                         stop := { line := line - 1, column := column - 1 + length } },
              message := msg, source := "Toml Parser" }] ∧
    (tomlErrorRange (TomlError.positional line column length msg)).start.line =
      line - 1 ∧
    (tomlErrorRange (TomlError.tokenAnchored line column length msg)).start.line =
      line - 1 :=
  ⟨rfl, rfl, rfl, rfl⟩

/-- C5 counterexample: a token-anchored error with length 0 maps to an
empty range, start equal to end, so the mapping does not guarantee a span
of at least one character for every length value. -/
theorem c5_counterexample :
    (tomlErrorRange (TomlError.tokenAnchored 1 1 0 "m")).start =
      (tomlErrorRange (TomlError.tokenAnchored 1 1 0 "m")).stop ∧
    ¬ posLt (tomlErrorRange (TomlError.tokenAnchored 1 1 0 "m")).start
      (tomlErrorRange (TomlError.tokenAnchored 1 1 0 "m")).stop := by
  exact ⟨by decide, by decide⟩

/-- C5 amended: the mapped range satisfies end strictly after start for
every positional error with non-negative length, every token-anchored
error with length at least one, and every unrecognized error shape; a
zero token length or a negative length yields an empty or inverted
range. -/
theorem c5_range_nonempty_when_length_ok (e : TomlError)
    (h : tomlErrorLengthOk e) :
    posLt (tomlErrorRange e).start (tomlErrorRange e).stop := by
  cases e with
  | positional line column length msg =>
      have hh : 0 ≤ length := h
      have hcol : column - 1 < column + length := by omega
      exact Or.inr ⟨rfl, hcol⟩
  | tokenAnchored tokLine tokColumn tokLength msg =>
      have hh : 1 ≤ tokLength := h
      have hcol : tokColumn - 1 < tokColumn - 1 + tokLength := by omega
      exact Or.inr ⟨rfl, hcol⟩
  | unknown msg =>
      have hcol : (0 : Int) < 1 := by omega
      exact Or.inr ⟨rfl, hcol⟩

/-- Witness for the amended C5 at a positional error of length 0. -/
theorem c5_witness :
    tomlErrorLengthOk (TomlError.positional 3 5 0 "m") ∧
    posLt (tomlErrorRange (TomlError.positional 3 5 0 "m")).start
      (tomlErrorRange (TomlError.positional 3 5 0 "m")).stop :=
  ⟨by decide, c5_range_nonempty_when_length_ok _ (by decide)⟩

/-- C9: for every reader outcome, a non-empty errors list in the parsed
document implies the value is the empty object, and a successful decode
implies the errors list is empty: the two never hold together. -/
theorem c9_errors_imply_empty_value (r : ReaderOutcome) :
    ((parseTOML r).errors ≠ [] → (parseTOML r).json = JsonValue.object []) ∧
    (∀ v, r.result = some v → (parseTOML r).errors = []) := by
  constructor
  · cases hr : r.result with
    | some v =>
        intro h
        exfalso
        apply h
        unfold parseTOML
        rw [hr]
    | none =>
        intro _
        unfold parseTOML
        rw [hr]
  · intro v h
    unfold parseTOML
    rw [h]

/-- Witness for C9 on a failing and on a succeeding reader outcome. -/
theorem c9_witness :
    (parseTOML { result := none, errors := [TomlError.unknown "x"] }).json =
      JsonValue.object [] ∧
    (parseTOML { result := some (JsonValue.object []), errors := [] }).errors = [] :=
  ⟨(c9_errors_imply_empty_value _).1 (by decide),
   (c9_errors_imply_empty_value _).2 (JsonValue.object []) rfl⟩

/-- C6: the pending-validation table of every reachable server state has
at most one timer per document uri (its keys are pairwise distinct), and
a burst of rapid edits to one uri leaves exactly one armed timer,
carrying the last edit's document and the default 200ms delay; the burst
itself runs no validation, and firing the surviving timer runs exactly
one validation, on the last edit's content. -/
theorem c6_debounce_at_most_one_timer :
    (∀ (reader : String → ReaderOutcome) (events : List ServerEvent),
      ((run reader events).pendingValidationRequests.map Prod.fst).Nodup) ∧
    (∀ (reader : String → ReaderOutcome) (s : ServerState) (u : String)
        (docs : List Doc) (d : Doc),
      (∀ x ∈ docs, x.uri = u) → d.uri = u →
      pendingFor ((docs ++ [d]).foldl triggerValidation s) u =
        [(u, { id := s.nextId + docs.length, doc := d,
               delay := validationDelayMs })] ∧
      ((docs ++ [d]).foldl triggerValidation s).runs = s.runs ∧
      (fireTimer reader ((docs ++ [d]).foldl triggerValidation s)
          (s.nextId + docs.length)).runs = d :: s.runs) := by
  constructor
  · intro reader events
    exact (wf_run reader events).keysNodup
  · intro reader s u docs d hall hd
    have hb := burst_state u docs d s hall hd
    refine ⟨pendingFor_burst u docs d s hall hd, ?_, ?_⟩
    · rw [hb]
    · rw [hb]
      unfold fireTimer
      dsimp only
      rw [List.find?_cons]
      simp only [beq_self_eq_true]
      rw [validate_runs]

/-- Witness for C6: two rapid edits to one document leave one armed timer
holding the second edit, and firing it validates only that content. -/
theorem c6_witness :
    pendingFor (([Doc.mk "file:a" "x"] ++ [Doc.mk "file:a" "y"]).foldl
        triggerValidation initState) "file:a" =
      [("file:a", { id := 1, doc := Doc.mk "file:a" "y",
                    delay := validationDelayMs })] ∧
    (fireTimer (fun _ => ReaderOutcome.mk none [])
        (([Doc.mk "file:a" "x"] ++ [Doc.mk "file:a" "y"]).foldl
          triggerValidation initState) 1).runs =
      [Doc.mk "file:a" "y"] := by
  have h := c6_debounce_at_most_one_timer.2 (fun _ => ReaderOutcome.mk none [])
    initState "file:a" [Doc.mk "file:a" "x"] (Doc.mk "file:a" "y")
    (by
      intro x hx
      simp at hx
      rw [hx])
    rfl
  exact ⟨h.1, h.2.2⟩

/-- C7: once a document is closed, and as long as no further content
change arrives for its uri, the most recently published diagnostics for
that uri remain the empty set, whatever other events (timer firings,
other documents' edits and closes) occur: no late validation result is
ever published for the closed document. -/
theorem c7_close_discards_late_validation
    (reader : String → ReaderOutcome) (s : ServerState) (d : Doc)
    (events : List ServerEvent) (hw : WF s)
    (hnc : ∀ e ∈ events, ∀ d2, e = ServerEvent.change d2 → d2.uri ≠ d.uri) :
    lastPublished (events.foldl (step reader)
        (step reader s (ServerEvent.close d))) d.uri = some (some []) := by
  have hq : Quiet d.uri (step reader s (ServerEvent.close d)) := quiet_close s d hw
  exact (quiet_foldl reader d.uri events _ hq hnc).2.2

/-- Witness for C7: after closing one document, an edit to another
document and a timer firing leave the closed uri's last publication
empty. -/
theorem c7_witness :
    lastPublished
      ([ServerEvent.change (Doc.mk "file:b" "t"),
        ServerEvent.fire 0].foldl
        (step (fun _ => ReaderOutcome.mk none []))
        (step (fun _ => ReaderOutcome.mk none []) initState
          (ServerEvent.close (Doc.mk "file:a" "t"))))
      "file:a" = some (some []) := by
  apply c7_close_discards_late_validation
  · exact wf_initState
  · intro e he d2 heq
    simp only [List.mem_cons, List.mem_singleton] at he
    rcases he with h | h | h
    · subst h
      cases heq
      decide
    · subst h
      simp at heq
    · simp at h

/-- C8: every rebuild places all schema bindings derived from dynamic
associations before every binding derived from static settings; a static
entry whose URI begins with a dot is resolved against the workspace
root; a static entry without a url derives its URI from the inline
schema's id, or else from the custom scheme prefix plus the URI-encoded
join of its fileMatch patterns; and on the concrete example the dynamic
binding precedes the static one. -/
theorem c8_configuration_rebuild :
    (∀ assoc cfgs root,
      (updateConfiguration assoc cfgs root).schemas =
        dynamicBindings assoc ++ staticBindings root cfgs) ∧
    (∀ (root : String) (entry : JSONSchemaSettings) (u : String),
      entry.url = some u → u ≠ "" → startsWithDot u = true →
      staticBinding (some root) entry =
        some { uri := workspaceResolve root u, fileMatch := entry.fileMatch,
               schema := entry.schema }) ∧
    (∀ (root : Option String) (entry : JSONSchemaSettings) (sid : String),
      entry.url = none → entry.schema = some { id := some sid } → sid ≠ "" →
      startsWithDot sid = false →
      staticBinding root entry =
        some { uri := sid, fileMatch := entry.fileMatch,
               schema := entry.schema }) ∧
    (∀ (root : Option String) (entry : JSONSchemaSettings) (fm : List String),
      entry.url = none → entry.schema = none → entry.fileMatch = some fm →
      staticBinding root entry =
        some { uri := "vscode://schemas/custom/" ++
                 encodeURIComponent (String.intercalate "&" fm),
               fileMatch := entry.fileMatch, schema := entry.schema }) ∧
    (updateConfiguration (some [("*.cfg", ["http://a"])])
        (some [{ fileMatch := some ["*.cfg"], url := some "http://b",
                 schema := none }])
        none).schemas =
      [{ uri := "http://a", fileMatch := some ["*.cfg"], schema := none },
       { uri := "http://b", fileMatch := some ["*.cfg"], schema := none }] := by
  refine ⟨updateConfiguration_schemas, ?_, ?_, ?_, ?_⟩
  · intro root entry u hurl hne hdot
    have ht : (u != "") = true := by simp [hne]
    simp [staticBinding, hurl, jsTruthy, ht, hdot]
  · intro root entry sid hurl hsch hne hdot
    have ht : (sid != "") = true := by simp [hne]
    cases root with
    | none => simp [staticBinding, hurl, hsch, jsTruthy, ht]
    | some r => simp [staticBinding, hurl, hsch, jsTruthy, ht, hdot]
  · intro root entry fm hurl hsch hfm
    have hne := custom_ne_empty (encodeURIComponent (String.intercalate "&" fm))
    have ht : (("vscode://schemas/custom/" ++
        encodeURIComponent (String.intercalate "&" fm)) != "") = true := by
      simp [hne]
    have hdot := startsWithDot_custom (encodeURIComponent (String.intercalate "&" fm))
    cases root with
    | none => simp [staticBinding, hurl, hsch, hfm, jsTruthy, ht]
    | some r => simp [staticBinding, hurl, hsch, hfm, jsTruthy, ht, hdot]
  · rfl

/-- Witness for C8: the workspace-relative, inline-id and fileMatch
derivations at concrete static entries. -/
theorem c8_witness :
    staticBinding (some "/ws")
        { fileMatch := none, url := some "./sub/s.json", schema := none } =
      some { uri := workspaceResolve "/ws" "./sub/s.json", fileMatch := none,
             schema := none } ∧
    staticBinding none
        { fileMatch := none, url := none,
          schema := some { id := some "http://x" } } =
      some { uri := "http://x", fileMatch := none,
             schema := some { id := some "http://x" } } ∧
    staticBinding none
        { fileMatch := some ["*.cfg", "b d"], url := none, schema := none } =
      some { uri := "vscode://schemas/custom/" ++
               encodeURIComponent (String.intercalate "&" ["*.cfg", "b d"]),
             fileMatch := some ["*.cfg", "b d"], schema := none } :=
  ⟨c8_configuration_rebuild.2.1 "/ws" _ "./sub/s.json" rfl (by decide) (by decide),
   c8_configuration_rebuild.2.2.1 none _ "http://x" rfl rfl (by decide) (by decide),
   c8_configuration_rebuild.2.2.2.1 none _ ["*.cfg", "b d"] rfl rfl rfl⟩

/-- C10: every configuration object built by updateConfiguration has
validate and allowComments set to true, for all possible settings and
association payloads. -/
theorem c10_always_validate_allow_comments
    (schemaAssociations : Option (List (String × List String)))
    (tomlConfigurationSettings : Option (List JSONSchemaSettings))
    (workspaceRoot : Option String) :
    (updateConfiguration schemaAssociations tomlConfigurationSettings
        workspaceRoot).validate = true ∧
    (updateConfiguration schemaAssociations tomlConfigurationSettings
        workspaceRoot).allowComments = true :=
  ⟨rfl, rfl⟩

end BetterToml
